import Mathlib

/-!
# Verification of the SuperLU_DIST 3D driver (`EXAMPLE/pddrive3d.c`)

A shallow embedding of the driver `pddrive3d.c` of SuperLU_DIST:
batch-mode grid grouping, the `usermap` construction, the driver's
control flow around `pdgssvx3d`, the option setup, the batch timing
reduction, and the helper `checkNRFMT`.  Library routines that are not
part of the repository snapshot (`pdgssvx3d` itself,
`superlu_gridinit3d`, `set_default_options_dist`) are modelled from the
specification, as marked in their doc comments.
-/

namespace PDDrive3D

/-! ## Batch-mode group assignment (pddrive3d.c lines 213–221)

In batch mode the driver computes
`color = myrank / (nprow*npcol*npdep)` and splits `MPI_COMM_WORLD`
by that color; ranks sharing a color form one batch group with its own
sub-communicator. -/

/-- `color s r` is the batch-group id the driver assigns to global rank
`r` when each grid uses `s = nprow*npcol*npdep` processes
(`int color = myrank/(nprow*npcol*npdep);`). -/
def color (s r : Nat) : Nat := r / s

/-- The set of global ranks (out of a universe of `P` ranks) assigned
to batch group `g`: the ranks whose `color` equals `g`.  This is the
membership of the sub-communicator created by `MPI_Comm_split`. -/
def groupMembers (P s g : Nat) : Finset Nat :=
  (Finset.range P).filter (fun r => color s r = g)


/-! ## The batch-mode usermap (pddrive3d.c lines 214–221)

```c
usermap = SUPERLU_MALLOC(nprow*npcol*npdep * sizeof(int));
p = 0;
for (int k = 0; k < npdep; ++k)
    for (int i = 0; i < nprow; ++i)
        for (int j = 0; j < npcol; ++j) usermap[i + j*nprow + k*nprow*npcol] = p++;
```
-/

/-- The iteration order of the triple loop at pddrive3d.c lines 218–220:
`k` (depth) outermost, then `i` (process row), then `j` (process column)
innermost. -/
def loopTriples (nprow npcol npdep : Nat) : List (Nat × Nat × Nat) :=
  (List.range npdep).flatMap fun k =>
    (List.range nprow).flatMap fun i =>
      (List.range npcol).map fun j => (k, i, j)

/-- The array slot written at loop triple `t = (k, i, j)`:
`usermap[i + j*nprow + k*nprow*npcol]`. -/
def posIndex (nprow npcol : Nat) (t : Nat × Nat × Nat) : Nat :=
  t.2.1 + t.2.2 * nprow + t.1 * (nprow * npcol)

/-- The sequence of `(slot, value)` writes performed by the loop: the `p`-th
iteration in loop order (the source's `p++` counter) writes value `p` into
the slot of its triple. -/
def usermapPairs (nprow npcol npdep : Nat) : List (Nat × Nat) :=
  (loopTriples nprow npcol npdep).enum.map fun pe => (posIndex nprow npcol pe.2, pe.1)

/-- Closed form of the final content of the `usermap` array at slot `idx`:
decomposing `idx = i + j*nprow + k*nprow*npcol`, the stored counter value is
`k*nprow*npcol + i*npcol + j`. -/
def usermap (nprow npcol : Nat) (idx : Nat) : Nat :=
  idx / nprow / npcol * (nprow * npcol) + idx % nprow * npcol + idx / nprow % npcol

/-- Inverse of `usermap`: the slot that receives counter value `p`. -/
def slotOf (nprow npcol : Nat) (p : Nat) : Nat :=
  p % (nprow * npcol) / npcol + p % (nprow * npcol) % npcol * nprow
    + p / (nprow * npcol) * (nprow * npcol)


/-! ## 3D grid coordinate assignment (spec-modelled) -/

/-- Modelled from the spec: `superlu_gridinit3d` / `superlu_gridmap3d` (the grid
construction routines are not part of this repository snapshot; only the driver
calls them).  Per §4.1 of the spec, a rank `r` below `nprow*npcol*npdep` is
assigned a distinct 3D coordinate `(i, j, k)`, the assigned coordinates covering
exactly `[0,nprow)×[0,npcol)×[0,npdep)`; every remaining rank is assigned the
inactive sentinel (modelled as `none`, the source's `iam == -1`).  The local
rank-to-coordinate order matches the driver's usermap convention: rank `p` sits
at `(i, j, k)` with `p = k*nprow*npcol + i*npcol + j`. -/
def gridCoord (nprow npcol npdep r : Nat) : Option (Nat × Nat × Nat) :=
  if r < nprow * npcol * npdep then
    some (r / npcol % nprow, r % npcol, r / npcol / nprow)
  else none

/-- Re-encoding of a coordinate triple `(i, j, k)` back to the rank holding it. -/
def coordRank (nprow npcol : Nat) (c : Nat × Nat × Nat) : Nat :=
  c.2.1 + npcol * (c.1 + nprow * c.2.2)


/-! ## The driver's control flow (pddrive3d.c main, lines 291–503) -/

/-- The operations of `main` after grid construction, at the granularity the
claims need.  Each constructor corresponds to one call site in
pddrive3d.c. -/
inductive Step
  | matrixIngest
  | berrAlloc
  | optionSetup
  | scalePermInit
  | luStructInit
  | statInit
  | solverCall
  | errorReport
  | accuracyCheck
  | statPrint2d
  | destroyLU
  | solveFinalize
  | deAllocLlu3d
  | deAllocGlu3d
  | destroyA3dGathered
  | destroyMatrix
  | freeVectors
  | scalePermFree
  | luStructFree
  | closeFile
  | batchReduce
  | batchReport
  | gridExit
  | statFree
  | mpiFinalize
deriving DecidableEq, Repr

/-- The driver's post-solver branch (pddrive3d.c lines 441–450):
`if ( info ) { ... print error ... } else { pdinf_norm_error(...); }`. -/
def postSolveAction (info : Int) : Step :=
  if info ≠ 0 then Step.errorReport else Step.accuracyCheck

/-- The destruction path selected by the grid's own layer-identity field
`grid.zscp.Iam` (pddrive3d.c lines 456–465): the base depth layer prints 2D
statistics and frees the full factor view through `dDestroy_LU` and
`dSolveFinalize`; every non-zero layer frees its reduced view through
`dDeAllocLlu_3d` and `dDeAllocGlu_3d`. -/
def destructorSteps (zscpIam : Int) : List Step :=
  if zscpIam = 0 then [Step.statPrint2d, Step.destroyLU, Step.solveFinalize]
  else [Step.deAllocLlu3d, Step.deAllocGlu3d]

/-- The batch epilogue at label `out` (pddrive3d.c lines 481–495): the two
`MPI_Allreduce` calls, then the report printed only by global rank 0. -/
def batchEpilogue (batch : Bool) (myrank : Int) : List Step :=
  if batch then
    [Step.batchReduce] ++ (if myrank = 0 then [Step.batchReport] else [])
  else []

/-- The sequence of operations one rank executes from the inactive-rank check
(line 293) to `MPI_Finalize` (line 503), as a function of the rank's grid
membership `iam` (`-1` = inactive sentinel), its layer identity `zscpIam`
(`grid.zscp.Iam`), the solver status `info`, the batch flag, and its global
rank `myrank`.  An inactive rank jumps (`goto out`) past everything up to and
including the deallocation block, and also skips `PStatFree` (guarded by
`iam != -1` at line 498). -/
def mainTrace (batch : Bool) (iam zscpIam info myrank : Int) : List Step :=
  if iam = -1 then
    batchEpilogue batch myrank ++ [Step.gridExit, Step.mpiFinalize]
  else
    [Step.matrixIngest, Step.berrAlloc, Step.optionSetup, Step.scalePermInit,
      Step.luStructInit, Step.statInit, Step.solverCall]
    ++ [postSolveAction info]
    ++ destructorSteps zscpIam
    ++ [Step.destroyA3dGathered, Step.destroyMatrix, Step.freeVectors,
        Step.scalePermFree, Step.luStructFree, Step.closeFile]
    ++ batchEpilogue batch myrank
    ++ [Step.gridExit, Step.statFree, Step.mpiFinalize]

/-! ## Solver outcome (spec-modelled) -/

/-- Modelled from the spec: the outcome of `pdgssvx3d` (the solver itself is
not part of this repository snapshot; only the driver calls it).  §4.3 of the
spec: the returned `info` is 0 on success, the positive pivot index `k` when
factorization failed at the `k`-th pivot, and negative when an invalid
argument was supplied. -/
inductive SolveOutcome
  | success
  | pivotFailure (k : Nat)
  | invalidArg (i : Nat)
deriving DecidableEq, Repr

/-- Modelled from the spec: the integer status `info` reported by
`pdgssvx3d` for each outcome (`k` and `i` are 1-based indices). -/
def infoOf : SolveOutcome → Int
  | SolveOutcome.success => 0
  | SolveOutcome.pivotFailure k => (k : Int)
  | SolveOutcome.invalidArg i => -(i : Int)

/-- Pivot and argument indices are 1-based. -/
def wellFormedOutcome : SolveOutcome → Prop
  | SolveOutcome.success => True
  | SolveOutcome.pivotFailure k => 1 ≤ k
  | SolveOutcome.invalidArg i => 1 ≤ i

/-! ## Batch timing reduction (pddrive3d.c lines 481–495) -/

/-- In-place `MPI_Allreduce(..., MPI_FLOAT, MPI_MIN, MPI_COMM_WORLD)`: every
rank contributes its local value and all obtain the global minimum. -/
def mpiAllreduceMin : List ℚ → ℚ
  | [] => 0
  | x :: xs => xs.foldl min x

/-- In-place `MPI_Allreduce(..., MPI_FLOAT, MPI_MAX, MPI_COMM_WORLD)`. -/
def mpiAllreduceMax : List ℚ → ℚ
  | [] => 0
  | x :: xs => xs.foldl max x

/-! ## Option setup (pddrive3d.c lines 376–408) -/

/-- Numeric codes of the `superlu_dist` enum constants referenced by the
documented defaults (the enum header is not part of this repository snapshot,
so the codes are parameters of the model). -/
structure EnumCodes where
  DOFACT : Int
  METIS_AT_PLUS_A : Int
  LargeDiag_MC64 : Int
  SLU_DOUBLE : Int
  NOTRANS : Int

/-- The `yes_no_t` flag type. -/
inductive yes_no_t
  | NO
  | YES
deriving DecidableEq, Repr

/-- The subset of `superlu_dist_options_t` the driver touches or documents.
Fields the command line can overwrite with a raw parsed integer
(`RowPerm`, `ColPerm`, `num_lookaheads`, `IterRefine`) are `Int`-coded, as in
the C source where an `atoi` result is assigned directly to the enum field. -/
structure superlu_dist_options_t where
  Fact : Int
  Equil : yes_no_t
  ParSymbFact : yes_no_t
  ColPerm : Int
  RowPerm : Int
  ReplaceTinyPivot : yes_no_t
  IterRefine : Int
  Trans : Int
  SolveInitialized : yes_no_t
  RefineInitialized : yes_no_t
  PrintStat : yes_no_t
  num_lookaheads : Int
  lookahead_etree : yes_no_t
  SymPattern : yes_no_t
  DiagInv : yes_no_t
  Algo3d : yes_no_t
deriving DecidableEq, Repr

/-- Modelled from the spec: `set_default_options_dist` (not part of this
repository snapshot), per the documented default block at pddrive3d.c lines
376–392 and spec §6 (equilibration on, tiny-pivot replacement off, look-ahead
depth the fixed default count 10); `Algo3d`, not listed there, defaults to
off per spec §3 (the 3D toggle is an option the caller enables). -/
def set_default_options_dist (c : EnumCodes) : superlu_dist_options_t :=
  { Fact := c.DOFACT
    Equil := yes_no_t.YES
    ParSymbFact := yes_no_t.NO
    ColPerm := c.METIS_AT_PLUS_A
    RowPerm := c.LargeDiag_MC64
    ReplaceTinyPivot := yes_no_t.NO
    IterRefine := c.SLU_DOUBLE
    Trans := c.NOTRANS
    SolveInitialized := yes_no_t.NO
    RefineInitialized := yes_no_t.NO
    PrintStat := yes_no_t.YES
    num_lookaheads := 10
    lookahead_etree := yes_no_t.NO
    SymPattern := yes_no_t.NO
    DiagInv := yes_no_t.NO
    Algo3d := yes_no_t.NO }

/-- The driver's option setup (pddrive3d.c lines 393–408): defaults, then the
three unconditional driver assignments (`Algo3d = YES; DiagInv = YES;
ReplaceTinyPivot = YES`), then the four command-line overrides, each applied
only when the parsed value differs from `-1` (the parse variables are
initialized to `-1` at lines 138–141 and changed only by their flags). -/
def driverOptions (c : EnumCodes) (lookahead colperm rowperm ir : Int) :
    superlu_dist_options_t :=
  let o₀ := set_default_options_dist c
  let o₁ := { o₀ with Algo3d := yes_no_t.YES, DiagInv := yes_no_t.YES,
                      ReplaceTinyPivot := yes_no_t.YES }
  let o₂ := if rowperm ≠ -1 then { o₁ with RowPerm := rowperm } else o₁
  let o₃ := if colperm ≠ -1 then { o₂ with ColPerm := colperm } else o₂
  let o₄ := if lookahead ≠ -1 then { o₃ with num_lookaheads := lookahead } else o₃
  if ir ≠ -1 then { o₄ with IterRefine := ir } else o₄

/-! ## checkNRFMT (pddrive3d.c lines 64–102) -/

/-- The local row-distributed sparse storage `NRformat_loc`.  The value and
index arrays are modelled as total functions, matching the in-bounds array
reads `checkNRFMT` performs; nonzero values are abstracted to integers, as
`checkNRFMT` only compares them for equality. -/
structure NRformat_loc where
  nnz_loc : Nat
  m_loc : Nat
  fst_row : Int
  nzval : Nat → Int
  rowptr : Nat → Int
  colind : Nat → Int

/-- Messages `checkNRFMT` prints while running. -/
inductive CheckMsg
  | colindCorrect
  | matrixCheckPassed
deriving DecidableEq, Repr

/-- The loop at pddrive3d.c lines 88–93 over the first `n` nonzero entries:
each iteration asserts value equality, then column-index equality, then prints
`"colind[] correct"`.  `none` models an assertion failure aborting the run;
`some ms` models normal completion having printed `ms`. -/
def checkEntryLoop (A B : NRformat_loc) : Nat → Option (List CheckMsg)
  | 0 => some []
  | n + 1 =>
    match checkEntryLoop A B n with
    | none => none
    | some ms =>
      if A.nzval n = B.nzval n ∧ A.colind n = B.colind n then
        some (ms ++ [CheckMsg.colindCorrect])
      else none

/-- The loop at pddrive3d.c lines 95–98 asserting the first `n` row-pointer
entries agree. -/
def checkRowptrLoop (A B : NRformat_loc) : Nat → Bool
  | 0 => true
  | n + 1 => checkRowptrLoop A B n && decide (A.rowptr n = B.rowptr n)

/-- `checkNRFMT(A, B)` (pddrive3d.c lines 64–102): the three header asserts,
the entry loop over `A->nnz_loc` entries, the row-pointer loop over
`A->m_loc + 1` entries, then the final `"Matrix check passed"` message.
`none` models an assertion failure aborting the run. -/
def checkNRFMT (A B : NRformat_loc) : Option (List CheckMsg) :=
  if A.nnz_loc = B.nnz_loc then
    if A.m_loc = B.m_loc then
      if A.fst_row = B.fst_row then
        match checkEntryLoop A B A.nnz_loc with
        | none => none
        | some ms =>
          if checkRowptrLoop A B (A.m_loc + 1) then
            some (ms ++ [CheckMsg.matrixCheckPassed])
          else none
      else none
    else none
  else none


/-! ## Lemmas and claim theorems -/

theorem color_eq_div (s r : Nat) : color s r = r / s := rfl

theorem groupMembers_disjoint (P s g₁ g₂ : Nat) (hne : g₁ ≠ g₂) :
    Disjoint (groupMembers P s g₁) (groupMembers P s g₂) := by
  simp only [Finset.disjoint_left, groupMembers, Finset.mem_filter]
  rintro r ⟨-, h1⟩ ⟨-, h2⟩
  exact hne (h1 ▸ h2)

theorem mem_groupMembers_iff (P s g r : Nat) (hs : 0 < s) :
    r ∈ groupMembers P s g ↔ r < P ∧ g * s ≤ r ∧ r < (g + 1) * s := by
  simp only [groupMembers, Finset.mem_filter, Finset.mem_range, color]
  constructor
  · rintro ⟨hrP, hdiv⟩
    refine ⟨hrP, ?_, ?_⟩
    · calc g * s = r / s * s := by rw [hdiv]
        _ ≤ r := Nat.div_mul_le_self r s
    · have := (Nat.div_lt_iff_lt_mul hs).mp (Nat.lt_succ_self (r / s))
      calc r < (r / s + 1) * s := this
        _ = (g + 1) * s := by rw [hdiv]
  · rintro ⟨hrP, hlo, hhi⟩
    refine ⟨hrP, ?_⟩
    have h1 : g ≤ r / s := (Nat.le_div_iff_mul_le hs).mpr hlo
    have h2 : r / s < g + 1 := (Nat.div_lt_iff_lt_mul hs).mpr hhi
    omega

theorem groupMembers_card (P s g numGroups : Nat) (hs : 0 < s)
    (hP : P = numGroups * s) (hg : g < numGroups) :
    (groupMembers P s g).card = s := by
  have hset : groupMembers P s g = Finset.Ico (g * s) (g * s + s) := by
    ext r
    rw [mem_groupMembers_iff P s g r hs, Finset.mem_Ico]
    constructor
    · rintro ⟨-, hlo, hhi⟩
      constructor
      · exact hlo
      · calc r < (g + 1) * s := hhi
          _ = g * s + s := by ring
    · rintro ⟨hlo, hhi⟩
      refine ⟨?_, hlo, ?_⟩
      · have : g * s + s ≤ numGroups * s := by
          have : g + 1 ≤ numGroups := hg
          calc g * s + s = (g + 1) * s := by ring
            _ ≤ numGroups * s := Nat.mul_le_mul_right s this
        omega
      · calc r < g * s + s := hhi
          _ = (g + 1) * s := by ring
  rw [hset, Nat.card_Ico]
  omega


theorem range_mul_bind (n m : Nat) :
    List.range (n * m) =
      (List.range n).flatMap fun a => (List.range m).map fun b => m * a + b := by
  induction n with
  | zero => simp
  | succ n ih =>
    rw [Nat.succ_mul, List.range_add, ih, List.range_succ,
      List.flatMap_append (List.range n) [n]]
    simp only [List.flatMap_cons, List.flatMap_nil, List.append_nil]
    congr 1
    apply List.map_congr_left
    intro b _
    ring

theorem digits_mod (a x t : Nat) (hx : x < a) : (x + a * t) % a = x := by
  rw [Nat.add_mul_mod_self_left, Nat.mod_eq_of_lt hx]

theorem digits_div (a x t : Nat) (hx : x < a) : (x + a * t) / a = t := by
  rw [Nat.add_mul_div_left _ _ (show 0 < a by omega),
    Nat.div_eq_of_lt hx, Nat.zero_add]

theorem loopTriples_eq (nprow npcol npdep : Nat) :
    loopTriples nprow npcol npdep =
      (List.range (npdep * (nprow * npcol))).map fun p =>
        (p / (nprow * npcol), p % (nprow * npcol) / npcol,
          p % (nprow * npcol) % npcol) := by
  unfold loopTriples
  rw [range_mul_bind npdep (nprow * npcol), List.map_flatMap]
  apply List.flatMap_congr
  intro k _
  rw [range_mul_bind nprow npcol, List.map_flatMap, List.map_flatMap]
  apply List.flatMap_congr
  intro i hi
  rw [List.map_map, List.map_map]
  apply List.map_congr_left
  intro j hj
  simp only [Function.comp_apply]
  have hj' : j < npcol := List.mem_range.mp hj
  have hi' : i < nprow := List.mem_range.mp hi
  have h1 : npcol * i + j = j + npcol * i := by ring
  have hb : npcol * i + j < nprow * npcol := by
    have hstep : npcol * (i + 1) = npcol * i + npcol := by ring
    have hle : npcol * (i + 1) ≤ npcol * nprow := Nat.mul_le_mul_left npcol hi'
    have hcomm : npcol * nprow = nprow * npcol := Nat.mul_comm _ _
    omega
  have hmod : (nprow * npcol) * k + (npcol * i + j) = (npcol * i + j) + (nprow * npcol) * k := by
    ring
  rw [hmod, digits_mod _ _ _ hb, digits_div _ _ _ hb, h1,
    digits_mod _ _ _ hj', digits_div _ _ _ hj']

theorem zip_self_map {α : Type} (l : List α) : l.zip l = l.map fun a => (a, a) := by
  induction l with
  | nil => rfl
  | cons x xs ih => simp [ih]

theorem usermapPairs_eq (nprow npcol npdep : Nat) :
    usermapPairs nprow npcol npdep =
      (List.range (npdep * (nprow * npcol))).map fun p => (slotOf nprow npcol p, p) := by
  unfold usermapPairs
  rw [loopTriples_eq, List.enum_eq_zip_range]
  rw [List.length_map, List.length_range]
  conv_lhs =>
    rw [show (List.range (npdep * (nprow * npcol))).zip
          ((List.range (npdep * (nprow * npcol))).map fun p =>
            (p / (nprow * npcol), p % (nprow * npcol) / npcol,
              p % (nprow * npcol) % npcol)) =
        ((List.range (npdep * (nprow * npcol))).map id).zip
          ((List.range (npdep * (nprow * npcol))).map fun p =>
            (p / (nprow * npcol), p % (nprow * npcol) / npcol,
              p % (nprow * npcol) % npcol)) from by rw [List.map_id]]
  rw [List.zip_map, zip_self_map, List.map_map, List.map_map]
  apply List.map_congr_left
  intro p _
  rfl

theorem usermap_at_write (nprow npcol : Nat) (i j k : Nat)
    (hi : i < nprow) (hj : j < npcol) :
    usermap nprow npcol (i + j * nprow + k * (nprow * npcol)) =
      k * (nprow * npcol) + i * npcol + j := by
  unfold usermap
  have h1 : i + j * nprow + k * (nprow * npcol) = i + nprow * (j + npcol * k) := by ring
  have h2 : j + npcol * k < npcol + npcol * k := by omega
  rw [h1, digits_mod _ _ _ hi, digits_div _ _ _ hi,
    digits_mod _ _ _ hj, digits_div _ _ _ hj]

theorem usermap_slotOf (nprow npcol npdep : Nat) (p : Nat)
    (hp : p < npdep * (nprow * npcol)) :
    usermap nprow npcol (slotOf nprow npcol p) = p := by
  have hM : 0 < nprow * npcol := by
    rcases Nat.eq_zero_or_pos (nprow * npcol) with h | h
    · rw [h, Nat.mul_zero] at hp; omega
    · exact h
  have hcol : 0 < npcol := by
    rcases Nat.eq_zero_or_pos npcol with h | h
    · rw [h, Nat.mul_zero] at hM; omega
    · exact h
  have hmodM : p % (nprow * npcol) < nprow * npcol := Nat.mod_lt p hM
  have hi : p % (nprow * npcol) / npcol < nprow := by
    rw [Nat.div_lt_iff_lt_mul hcol]
    exact hmodM
  have hj : p % (nprow * npcol) % npcol < npcol := Nat.mod_lt _ hcol
  unfold slotOf
  rw [usermap_at_write nprow npcol _ _ _ hi hj]
  have e1 := Nat.div_add_mod (p % (nprow * npcol)) npcol
  have e2 := Nat.div_add_mod p (nprow * npcol)
  calc p / (nprow * npcol) * (nprow * npcol)
        + p % (nprow * npcol) / npcol * npcol + p % (nprow * npcol) % npcol
      = (nprow * npcol) * (p / (nprow * npcol))
        + (npcol * (p % (nprow * npcol) / npcol) + p % (nprow * npcol) % npcol) := by
        ring
    _ = (nprow * npcol) * (p / (nprow * npcol)) + p % (nprow * npcol) := by rw [e1]
    _ = p := e2

theorem slotOf_usermap (nprow npcol npdep : Nat) (idx : Nat)
    (hidx : idx < npdep * (nprow * npcol)) :
    slotOf nprow npcol (usermap nprow npcol idx) = idx := by
  have hM : 0 < nprow * npcol := by
    rcases Nat.eq_zero_or_pos (nprow * npcol) with h | h
    · rw [h, Nat.mul_zero] at hidx; omega
    · exact h
  have hrow : 0 < nprow := by
    rcases Nat.eq_zero_or_pos nprow with h | h
    · rw [h, Nat.zero_mul] at hM; omega
    · exact h
  have hcol : 0 < npcol := by
    rcases Nat.eq_zero_or_pos npcol with h | h
    · rw [h, Nat.mul_zero] at hM; omega
    · exact h
  have hi : idx % nprow < nprow := Nat.mod_lt _ hrow
  have hj : idx / nprow % npcol < npcol := Nat.mod_lt _ hcol
  have hb : idx % nprow * npcol + idx / nprow % npcol < nprow * npcol := by
    have h1 : idx % nprow * npcol + npcol ≤ nprow * npcol := by
      have : (idx % nprow + 1) * npcol ≤ nprow * npcol :=
        Nat.mul_le_mul_right npcol hi
      calc idx % nprow * npcol + npcol = (idx % nprow + 1) * npcol := by ring
        _ ≤ nprow * npcol := this
    omega
  unfold usermap slotOf
  have h1 : idx / nprow / npcol * (nprow * npcol) + idx % nprow * npcol + idx / nprow % npcol
      = (idx % nprow * npcol + idx / nprow % npcol)
        + (nprow * npcol) * (idx / nprow / npcol) := by ring
  rw [h1, digits_mod _ _ _ hb, digits_div _ _ _ hb]
  have h2 : idx % nprow * npcol + idx / nprow % npcol
      = idx / nprow % npcol + npcol * (idx % nprow) := by ring
  rw [h2, digits_mod _ _ _ hj, digits_div _ _ _ hj]
  have e1 : npcol * (idx / nprow / npcol) + idx / nprow % npcol = idx / nprow := by
    have := Nat.div_add_mod (idx / nprow) npcol
    omega
  have e2 : nprow * (idx / nprow) + idx % nprow = idx := by
    have := Nat.div_add_mod idx nprow
    omega
  calc idx % nprow + idx / nprow % npcol * nprow
        + idx / nprow / npcol * (nprow * npcol)
      = idx % nprow + nprow * (idx / nprow % npcol + npcol * (idx / nprow / npcol)) := by
        ring
    _ = idx % nprow + nprow * (idx / nprow) := by rw [Nat.add_comm (idx / nprow % npcol), e1]
    _ = idx := by omega

theorem usermap_mapsTo (nprow npcol npdep : Nat) (idx : Nat)
    (hidx : idx < npdep * (nprow * npcol)) :
    usermap nprow npcol idx < npdep * (nprow * npcol) := by
  have hM : 0 < nprow * npcol := by
    rcases Nat.eq_zero_or_pos (nprow * npcol) with h | h
    · rw [h, Nat.mul_zero] at hidx; omega
    · exact h
  have hrow : 0 < nprow := by
    rcases Nat.eq_zero_or_pos nprow with h | h
    · rw [h, Nat.zero_mul] at hM; omega
    · exact h
  have hcol : 0 < npcol := by
    rcases Nat.eq_zero_or_pos npcol with h | h
    · rw [h, Nat.mul_zero] at hM; omega
    · exact h
  have hk : idx / nprow / npcol < npdep := by
    rw [Nat.div_div_eq_div_mul, Nat.div_lt_iff_lt_mul hM]
    calc idx < npdep * (nprow * npcol) := hidx
      _ = npdep * (nprow * npcol) := rfl
  have hi : idx % nprow < nprow := Nat.mod_lt _ hrow
  have hj : idx / nprow % npcol < npcol := Nat.mod_lt _ hcol
  have hb : idx % nprow * npcol + idx / nprow % npcol < nprow * npcol := by
    have h1 : (idx % nprow + 1) * npcol ≤ nprow * npcol := Nat.mul_le_mul_right npcol hi
    have h2 : idx % nprow * npcol + npcol = (idx % nprow + 1) * npcol := by ring
    omega
  unfold usermap
  have h3 : (idx / nprow / npcol + 1) * (nprow * npcol) ≤ npdep * (nprow * npcol) :=
    Nat.mul_le_mul_right _ hk
  have h4 : (idx / nprow / npcol + 1) * (nprow * npcol)
      = idx / nprow / npcol * (nprow * npcol) + nprow * npcol := by ring
  omega

theorem slotOf_mapsTo (nprow npcol npdep : Nat) (p : Nat)
    (hp : p < npdep * (nprow * npcol)) :
    slotOf nprow npcol p < npdep * (nprow * npcol) := by
  have hM : 0 < nprow * npcol := by
    rcases Nat.eq_zero_or_pos (nprow * npcol) with h | h
    · rw [h, Nat.mul_zero] at hp; omega
    · exact h
  have hcol : 0 < npcol := by
    rcases Nat.eq_zero_or_pos npcol with h | h
    · rw [h, Nat.mul_zero] at hM; omega
    · exact h
  have hmodM : p % (nprow * npcol) < nprow * npcol := Nat.mod_lt p hM
  have hi : p % (nprow * npcol) / npcol < nprow := by
    rw [Nat.div_lt_iff_lt_mul hcol]; exact hmodM
  have hj : p % (nprow * npcol) % npcol < npcol := Nat.mod_lt _ hcol
  have hk : p / (nprow * npcol) < npdep := by
    rw [Nat.div_lt_iff_lt_mul hM]; exact hp
  have hb : p % (nprow * npcol) / npcol + p % (nprow * npcol) % npcol * nprow
      < nprow * npcol := by
    have h1 : (p % (nprow * npcol) % npcol + 1) * nprow ≤ npcol * nprow :=
      Nat.mul_le_mul_right nprow hj
    have h2 : npcol * nprow = nprow * npcol := Nat.mul_comm _ _
    have h3 : (p % (nprow * npcol) % npcol + 1) * nprow
        = p % (nprow * npcol) % npcol * nprow + nprow := by ring
    omega
  unfold slotOf
  have h3 : (p / (nprow * npcol) + 1) * (nprow * npcol) ≤ npdep * (nprow * npcol) :=
    Nat.mul_le_mul_right _ hk
  have h4 : (p / (nprow * npcol) + 1) * (nprow * npcol)
      = p / (nprow * npcol) * (nprow * npcol) + nprow * npcol := by ring
  omega


theorem coordRank_gridCoord (nprow npcol r : Nat) :
    coordRank nprow npcol (r / npcol % nprow, r % npcol, r / npcol / nprow) = r := by
  unfold coordRank
  have e1 := Nat.div_add_mod (r / npcol) nprow
  have e2 := Nat.div_add_mod r npcol
  calc r % npcol + npcol * (r / npcol % nprow + nprow * (r / npcol / nprow))
      = r % npcol + npcol * (nprow * (r / npcol / nprow) + r / npcol % nprow) := by ring
    _ = r % npcol + npcol * (r / npcol) := by rw [e1]
    _ = npcol * (r / npcol) + r % npcol := by ring
    _ = r := e2

theorem gridCoord_inj (nprow npcol npdep r₁ r₂ : Nat) (c : Nat × Nat × Nat)
    (h₁ : gridCoord nprow npcol npdep r₁ = some c)
    (h₂ : gridCoord nprow npcol npdep r₂ = some c) : r₁ = r₂ := by
  unfold gridCoord at h₁ h₂
  by_cases hb₁ : r₁ < nprow * npcol * npdep
  · by_cases hb₂ : r₂ < nprow * npcol * npdep
    · rw [if_pos hb₁] at h₁
      rw [if_pos hb₂] at h₂
      have hc₁ := Option.some.inj h₁
      have hc₂ := Option.some.inj h₂
      have e₁ := coordRank_gridCoord nprow npcol r₁
      have e₂ := coordRank_gridCoord nprow npcol r₂
      rw [hc₁] at e₁
      rw [hc₂] at e₂
      omega
    · rw [if_neg hb₂] at h₂; exact absurd h₂ (by simp)
  · rw [if_neg hb₁] at h₁; exact absurd h₁ (by simp)

theorem gridCoord_image (nprow npcol npdep : Nat) (P : Nat)
    (hP : nprow * npcol * npdep ≤ P) (c : Nat × Nat × Nat) :
    (∃ r, r < P ∧ gridCoord nprow npcol npdep r = some c) ↔
      (c.1 < nprow ∧ c.2.1 < npcol ∧ c.2.2 < npdep) := by
  obtain ⟨i, j, k⟩ := c
  show (∃ r, r < P ∧ gridCoord nprow npcol npdep r = some (i, j, k)) ↔
    (i < nprow ∧ j < npcol ∧ k < npdep)
  constructor
  · rintro ⟨r, -, hr⟩
    unfold gridCoord at hr
    by_cases hb : r < nprow * npcol * npdep
    · rw [if_pos hb] at hr
      obtain ⟨hc1, hc2, hc3⟩ :
          r / npcol % nprow = i ∧ r % npcol = j ∧ r / npcol / nprow = k := by
        simpa [Prod.ext_iff] using hr
      have hrow : 0 < nprow := by
        rcases Nat.eq_zero_or_pos nprow with h | h
        · rw [h] at hb; simp at hb
        · exact h
      have hcol : 0 < npcol := by
        rcases Nat.eq_zero_or_pos npcol with h | h
        · rw [h] at hb; simp at hb
        · exact h
      have hk : r / npcol / nprow < npdep := by
        rw [Nat.div_div_eq_div_mul, Nat.div_lt_iff_lt_mul (Nat.mul_pos hcol hrow)]
        have : npdep * (npcol * nprow) = nprow * npcol * npdep := by ring
        omega
      subst hc1
      subst hc2
      subst hc3
      exact ⟨Nat.mod_lt _ hrow, Nat.mod_lt _ hcol, hk⟩
    · rw [if_neg hb] at hr; exact absurd hr (by simp)
  · rintro ⟨hi, hj, hk⟩
    have hb : j + npcol * (i + nprow * k) < nprow * npcol * npdep := by
      have h1 : i + nprow * k + 1 ≤ nprow * (k + 1) := by
        have : nprow * (k + 1) = nprow * k + nprow := by ring
        omega
      have h4 : npcol * (i + nprow * k + 1) ≤ npcol * (nprow * (k + 1)) :=
        Nat.mul_le_mul_left npcol h1
      have h5 : nprow * (k + 1) ≤ nprow * npdep := Nat.mul_le_mul_left nprow hk
      have h6 : npcol * (nprow * (k + 1)) ≤ npcol * (nprow * npdep) :=
        Nat.mul_le_mul_left npcol h5
      have h7 : npcol * (nprow * npdep) = nprow * npcol * npdep := by ring
      have h8 : npcol * (i + nprow * k + 1) = npcol * (i + nprow * k) + npcol := by
        ring
      omega
    refine ⟨j + npcol * (i + nprow * k), by omega, ?_⟩
    unfold gridCoord
    rw [if_pos hb, digits_div npcol j _ hj, digits_mod npcol j _ hj,
      digits_mod nprow i k hi, digits_div nprow i k hi]


/-! ## Claim theorems C2 and C4 -/

/-- **C2.** In batch mode, every global rank `r` is assigned to batch group
`r / (nprow*npcol*npdep)` (integer division), the groups are pairwise disjoint
and each of size `nprow*npcol*npdep`, and each group's sub-communicator
(created by `MPI_Comm_split` keyed by global rank) consists of its own block of
global ranks, over which the group builds its own 3D grid. -/
theorem batch_group_partition (nprow npcol npdep numGroups P : Nat)
    (hs : 0 < nprow * npcol * npdep)
    (hP : P = numGroups * (nprow * npcol * npdep)) :
    (∀ r, color (nprow * npcol * npdep) r = r / (nprow * npcol * npdep))
    ∧ (∀ g₁ g₂, g₁ ≠ g₂ →
        Disjoint (groupMembers P (nprow * npcol * npdep) g₁)
          (groupMembers P (nprow * npcol * npdep) g₂))
    ∧ (∀ g, g < numGroups →
        (groupMembers P (nprow * npcol * npdep) g).card = nprow * npcol * npdep)
    ∧ (∀ g, g < numGroups → ∀ p, p < nprow * npcol * npdep →
        g * (nprow * npcol * npdep) + p ∈ groupMembers P (nprow * npcol * npdep) g) :=
  by
  refine ⟨fun r => color_eq_div _ r, fun g₁ g₂ h => groupMembers_disjoint P _ g₁ g₂ h,
    fun g hg => groupMembers_card P _ g numGroups hs hP hg, ?_⟩
  intro g hg p hp
  rw [mem_groupMembers_iff P _ g _ hs]
  have h1 : (g + 1) * (nprow * npcol * npdep) ≤ numGroups * (nprow * npcol * npdep) :=
    Nat.mul_le_mul_right _ hg
  have h2 : (g + 1) * (nprow * npcol * npdep)
      = g * (nprow * npcol * npdep) + nprow * npcol * npdep := by ring
  omega

/-- Witness for C2 on a concrete instance: 12 ranks, `2 × 3 × 1` grids,
2 groups. -/
theorem batch_group_partition_witness :
    (groupMembers 12 (2 * 3 * 1) 1).card = 2 * 3 * 1
    ∧ Disjoint (groupMembers 12 (2 * 3 * 1) 0) (groupMembers 12 (2 * 3 * 1) 1)
    ∧ 1 * (2 * 3 * 1) + 4 ∈ groupMembers 12 (2 * 3 * 1) 1 := by
  have h := batch_group_partition 2 3 1 2 12 (by norm_num) (by norm_num)
  exact ⟨h.2.2.1 1 (by norm_num), h.2.1 0 1 (by norm_num),
    h.2.2.2 1 (by norm_num) 4 (by norm_num)⟩

/-- **C4.** For every dimension triple with `npdep` a power of two and
`nprow*npcol*npdep` not exceeding the universe size `P`: grid construction
assigns every rank either a unique grid coordinate or the inactive sentinel,
the set of assigned coordinates is exactly the Cartesian product
`[0,nprow)×[0,npcol)×[0,npdep)`, and the batch-mode usermap writes each of the
`nprow*npcol*npdep` slots exactly once, slot `i + j*nprow + k*nprow*npcol`
receiving local rank `usermap`, a bijection of `[0, nprow*npcol*npdep)` onto
itself. -/
theorem grid3d_coords_unique_and_usermap_bijective
    (nprow npcol npdep P : Nat) (hpow : ∃ e, npdep = 2 ^ e)
    (hP : nprow * npcol * npdep ≤ P) :
    (∀ r₁ r₂ c, gridCoord nprow npcol npdep r₁ = some c →
        gridCoord nprow npcol npdep r₂ = some c → r₁ = r₂)
    ∧ (∀ c, (∃ r, r < P ∧ gridCoord nprow npcol npdep r = some c) ↔
        (c.1 < nprow ∧ c.2.1 < npcol ∧ c.2.2 < npdep))
    ∧ ((usermapPairs nprow npcol npdep).map Prod.fst).Nodup
    ∧ (∀ i j k, i < nprow → j < npcol → k < npdep →
        (i + j * nprow + k * (nprow * npcol),
          usermap nprow npcol (i + j * nprow + k * (nprow * npcol)))
          ∈ usermapPairs nprow npcol npdep)
    ∧ Set.BijOn (usermap nprow npcol) (Set.Iio (nprow * npcol * npdep))
        (Set.Iio (nprow * npcol * npdep)) := by
  have hT : nprow * npcol * npdep = npdep * (nprow * npcol) := by ring
  refine ⟨fun r₁ r₂ c => gridCoord_inj nprow npcol npdep r₁ r₂ c,
    fun c => gridCoord_image nprow npcol npdep P hP c, ?_, ?_, ?_⟩
  · rw [usermapPairs_eq, List.map_map]
    have he : (Prod.fst ∘ fun p => (slotOf nprow npcol p, p)) = slotOf nprow npcol := rfl
    rw [he]
    refine (List.nodup_range _).map_on ?_
    intro a ha b hb hab
    have ha' := List.mem_range.mp ha
    have hb' := List.mem_range.mp hb
    have := usermap_slotOf nprow npcol npdep a ha'
    have := usermap_slotOf nprow npcol npdep b hb'
    rw [← this, ← hab]
    omega
  · intro i j k hi hj hk
    have hM : 0 < nprow * npcol := Nat.mul_pos (by omega) (by omega)
    have hx : i * npcol + j < nprow * npcol := by
      have h1 : (i + 1) * npcol ≤ nprow * npcol := Nat.mul_le_mul_right npcol hi
      have h2 : (i + 1) * npcol = i * npcol + npcol := by ring
      omega
    have hpT : k * (nprow * npcol) + i * npcol + j < npdep * (nprow * npcol) := by
      have h1 : (k + 1) * (nprow * npcol) ≤ npdep * (nprow * npcol) :=
        Nat.mul_le_mul_right _ hk
      have h2 : (k + 1) * (nprow * npcol) = k * (nprow * npcol) + nprow * npcol := by
        ring
      omega
    rw [usermapPairs_eq]
    have hslot : slotOf nprow npcol (k * (nprow * npcol) + i * npcol + j)
        = i + j * nprow + k * (nprow * npcol) := by
      unfold slotOf
      have e0 : k * (nprow * npcol) + i * npcol + j
          = (i * npcol + j) + (nprow * npcol) * k := by ring
      rw [e0, digits_mod _ _ _ hx, digits_div _ _ _ hx]
      have e1 : i * npcol + j = j + npcol * i := by ring
      rw [e1, digits_mod _ _ _ hj, digits_div _ _ _ hj]
    have hval : usermap nprow npcol (i + j * nprow + k * (nprow * npcol))
        = k * (nprow * npcol) + i * npcol + j := usermap_at_write nprow npcol i j k hi hj
    refine List.mem_map.mpr ⟨k * (nprow * npcol) + i * npcol + j, ?_, ?_⟩
    · exact List.mem_range.mpr hpT
    · rw [hslot, hval]
  · rw [hT]
    have hinv : Set.InvOn (slotOf nprow npcol) (usermap nprow npcol)
        (Set.Iio (npdep * (nprow * npcol))) (Set.Iio (npdep * (nprow * npcol))) := by
      constructor
      · intro idx hidx
        exact slotOf_usermap nprow npcol npdep idx hidx
      · intro p hp
        exact usermap_slotOf nprow npcol npdep p hp
    exact hinv.bijOn (fun idx hidx => usermap_mapsTo nprow npcol npdep idx hidx)
      (fun p hp => slotOf_mapsTo nprow npcol npdep p hp)

/-- Witness for C4 on a concrete instance: a `2 × 3 × 2` grid in a universe of
13 ranks. -/
theorem grid3d_coords_unique_and_usermap_bijective_witness :
    ((usermapPairs 2 3 2).map Prod.fst).Nodup
    ∧ (1 + 2 * 2 + 1 * (2 * 3), usermap 2 3 (1 + 2 * 2 + 1 * (2 * 3)))
        ∈ usermapPairs 2 3 2
    ∧ Set.BijOn (usermap 2 3) (Set.Iio (2 * 3 * 2)) (Set.Iio (2 * 3 * 2)) := by
  have h := grid3d_coords_unique_and_usermap_bijective 2 3 2 13
    ⟨1, by norm_num⟩ (by norm_num)
  exact ⟨h.2.2.1, h.2.2.2.1 1 2 1 (by norm_num) (by norm_num) (by norm_num),
    h.2.2.2.2⟩


/-! ## Helper lemmas for the fold-based reductions and the check loops -/

theorem foldl_min_le (xs : List ℚ) (a : ℚ) :
    xs.foldl min a ≤ a ∧ ∀ b ∈ xs, xs.foldl min a ≤ b := by
  induction xs generalizing a with
  | nil => exact ⟨le_refl a, by simp⟩
  | cons x xs ih =>
    have h := ih (min a x)
    refine ⟨le_trans h.1 (min_le_left a x), ?_⟩
    intro b hb
    rcases List.mem_cons.mp hb with rfl | hb'
    · exact le_trans h.1 (min_le_right a b)
    · exact h.2 b hb'

theorem le_foldl_max (xs : List ℚ) (a : ℚ) :
    a ≤ xs.foldl max a ∧ ∀ b ∈ xs, b ≤ xs.foldl max a := by
  induction xs generalizing a with
  | nil => exact ⟨le_refl a, by simp⟩
  | cons x xs ih =>
    have h := ih (max a x)
    refine ⟨le_trans (le_max_left a x) h.1, ?_⟩
    intro b hb
    rcases List.mem_cons.mp hb with rfl | hb'
    · exact le_trans (le_max_right a b) h.1
    · exact h.2 b hb'

theorem mpiAllreduceMin_le (l : List ℚ) (t : ℚ) (ht : t ∈ l) :
    mpiAllreduceMin l ≤ t := by
  cases l with
  | nil => cases ht
  | cons x xs =>
    unfold mpiAllreduceMin
    rcases List.mem_cons.mp ht with rfl | h'
    · exact (foldl_min_le xs t).1
    · exact (foldl_min_le xs x).2 t h'

theorem le_mpiAllreduceMax (l : List ℚ) (t : ℚ) (ht : t ∈ l) :
    t ≤ mpiAllreduceMax l := by
  cases l with
  | nil => cases ht
  | cons x xs =>
    unfold mpiAllreduceMax
    rcases List.mem_cons.mp ht with rfl | h'
    · exact (le_foldl_max xs t).1
    · exact (le_foldl_max xs x).2 t h'

theorem checkEntryLoop_isSome (A B : NRformat_loc) (n : Nat) :
    (checkEntryLoop A B n).isSome = true ↔
      ∀ i < n, A.nzval i = B.nzval i ∧ A.colind i = B.colind i := by
  induction n with
  | zero => simp [checkEntryLoop]
  | succ n ih =>
    unfold checkEntryLoop
    cases h : checkEntryLoop A B n with
    | none =>
      rw [h] at ih
      simp only [Option.isSome_none, Bool.false_eq_true, false_iff] at ih
      simp only [Option.isSome_none, Bool.false_eq_true, false_iff]
      intro hall
      exact ih fun i hi => hall i (by omega)
    | some ms =>
      rw [h] at ih
      simp only [Option.isSome_some, true_iff] at ih
      dsimp only
      by_cases hcond : A.nzval n = B.nzval n ∧ A.colind n = B.colind n
      · rw [if_pos hcond]
        simp only [Option.isSome_some, true_iff]
        intro i hi
        rcases Nat.lt_succ_iff_lt_or_eq.mp hi with h' | rfl
        · exact ih i h'
        · exact hcond
      · rw [if_neg hcond]
        simp only [Option.isSome_none, Bool.false_eq_true, false_iff]
        intro hall
        exact hcond (hall n (Nat.lt_succ_self n))

theorem checkRowptrLoop_eq_true (A B : NRformat_loc) (n : Nat) :
    checkRowptrLoop A B n = true ↔ ∀ i < n, A.rowptr i = B.rowptr i := by
  induction n with
  | zero => simp [checkRowptrLoop]
  | succ n ih =>
    unfold checkRowptrLoop
    rw [Bool.and_eq_true, ih, decide_eq_true_iff]
    constructor
    · rintro ⟨hall, hn⟩ i hi
      rcases Nat.lt_succ_iff_lt_or_eq.mp hi with h' | rfl
      · exact hall i h'
      · exact hn
    · intro hall
      exact ⟨fun i hi => hall i (by omega), hall n (Nat.lt_succ_self n)⟩


/-! ## Claim theorems C1, C3, C5, C6, C7, C8, C9, C10 -/

/-- **C1.** The status returned by the solver is 0 exactly on success, the
positive pivot index `k` exactly when factorization failed at the `k`-th
pivot, and negative exactly when an argument was invalid; the driver's
post-call behaviour (error report versus accuracy check of the solution)
branches solely on whether this status is nonzero. -/
theorem pdgssvx3d_status_encoding_and_branch (o : SolveOutcome)
    (ho : wellFormedOutcome o) :
    (infoOf o = 0 ↔ o = SolveOutcome.success)
    ∧ (0 < infoOf o ↔ ∃ k, o = SolveOutcome.pivotFailure k)
    ∧ (infoOf o < 0 ↔ ∃ i, o = SolveOutcome.invalidArg i)
    ∧ (∀ k, o = SolveOutcome.pivotFailure k → infoOf o = (k : Int))
    ∧ (postSolveAction (infoOf o) = Step.accuracyCheck ↔ o = SolveOutcome.success)
    ∧ (postSolveAction (infoOf o) = Step.errorReport ↔ ¬(o = SolveOutcome.success))
    ∧ (∀ info₁ info₂ : Int, (info₁ = 0 ↔ info₂ = 0) →
        postSolveAction info₁ = postSolveAction info₂) := by
  have hbranch : ∀ info₁ info₂ : Int, (info₁ = 0 ↔ info₂ = 0) →
      postSolveAction info₁ = postSolveAction info₂ := by
    intro i₁ i₂ h12
    unfold postSolveAction
    by_cases h1 : i₁ = 0
    · rw [if_neg (by simpa using h1), if_neg (by simpa using h12.mp h1)]
    · rw [if_pos (by simpa using h1), if_pos (by simpa using fun h => h1 (h12.mpr h))]
  cases o with
  | success =>
    refine ⟨by simp [infoOf], by simp [infoOf], by simp [infoOf], ?_, ?_, ?_, hbranch⟩
    · intro k hk; cases hk
    · simp [postSolveAction, infoOf]
    · simp [postSolveAction, infoOf]
  | pivotFailure k =>
    have hk : 1 ≤ k := ho
    refine ⟨?_, ?_, ?_, ?_, ?_, ?_, hbranch⟩
    · simp only [infoOf]
      constructor
      · intro h; exfalso; omega
      · intro h; cases h
    · simp only [infoOf]
      constructor
      · intro _; exact ⟨k, rfl⟩
      · intro _; omega
    · simp only [infoOf]
      constructor
      · intro h; exfalso; omega
      · rintro ⟨i, hi⟩; cases hi
    · rintro k' hk'
      cases hk'
      rfl
    · simp only [postSolveAction, infoOf]
      rw [if_pos (by omega : ¬((k : Int) = 0))]
      simp
    · simp only [postSolveAction, infoOf]
      rw [if_pos (by omega : ¬((k : Int) = 0))]
      simp
  | invalidArg i =>
    have hi : 1 ≤ i := ho
    refine ⟨?_, ?_, ?_, ?_, ?_, ?_, hbranch⟩
    · simp only [infoOf]
      constructor
      · intro h; exfalso; omega
      · intro h; cases h
    · simp only [infoOf]
      constructor
      · intro h; exfalso; omega
      · rintro ⟨k, hk⟩; cases hk
    · simp only [infoOf]
      constructor
      · intro _; exact ⟨i, rfl⟩
      · intro _; omega
    · intro k hk; cases hk
    · simp only [postSolveAction, infoOf]
      rw [if_pos (by omega : ¬(-(i : Int) = 0))]
      simp
    · simp only [postSolveAction, infoOf]
      rw [if_pos (by omega : ¬(-(i : Int) = 0))]
      simp

/-- Witness for C1: a factorization failure at pivot 3 yields a positive
status and routes the driver to the error report. -/
theorem pdgssvx3d_status_encoding_and_branch_witness :
    wellFormedOutcome (SolveOutcome.pivotFailure 3)
    ∧ postSolveAction (infoOf (SolveOutcome.pivotFailure 3)) = Step.errorReport := by
  have h := pdgssvx3d_status_encoding_and_branch (SolveOutcome.pivotFailure 3)
    (by simp [wellFormedOutcome])
  exact ⟨by simp [wellFormedOutcome], h.2.2.2.2.2.1.mpr (by simp)⟩

/-- **C3.** The reduced minimum is below and the reduced maximum above every
individual rank's observed factorization/solve time, and in batch mode the
timing report is printed exactly once, by global rank 0 only. -/
theorem batch_timing_reduction_and_report (factTimes solveTimes : List ℚ) :
    (∀ t ∈ factTimes, mpiAllreduceMin factTimes ≤ t ∧ t ≤ mpiAllreduceMax factTimes)
    ∧ (∀ t ∈ solveTimes, mpiAllreduceMin solveTimes ≤ t ∧ t ≤ mpiAllreduceMax solveTimes)
    ∧ (∀ iam zscpIam info myrank : Int,
        ((mainTrace true iam zscpIam info myrank).contains Step.batchReport = true
          ↔ myrank = 0))
    ∧ (∀ P : Nat, 0 < P → (Finset.range P).filter (fun r => r = 0) = {0}) := by
  refine ⟨fun t ht => ⟨mpiAllreduceMin_le _ t ht, le_mpiAllreduceMax _ t ht⟩,
    fun t ht => ⟨mpiAllreduceMin_le _ t ht, le_mpiAllreduceMax _ t ht⟩, ?_, ?_⟩
  · intro iam zscpIam info myrank
    by_cases hi : iam = -1 <;> by_cases hz : zscpIam = 0 <;>
      by_cases hinfo : info = 0 <;> by_cases hm : myrank = 0 <;>
      simp [mainTrace, batchEpilogue, destructorSteps, postSolveAction,
        hi, hz, hinfo, hm]
  · intro P hP
    ext r
    simp only [Finset.mem_filter, Finset.mem_range, Finset.mem_singleton]
    constructor
    · rintro ⟨-, h⟩; exact h
    · rintro rfl; exact ⟨hP, rfl⟩

/-- Witness for C3 on a concrete instance. -/
theorem batch_timing_reduction_and_report_witness :
    (mpiAllreduceMin [(3 : ℚ), 1, 2] ≤ 1 ∧ (1 : ℚ) ≤ mpiAllreduceMax [(3 : ℚ), 1, 2])
    ∧ (mainTrace true 0 0 0 0).contains Step.batchReport = true
    ∧ (Finset.range 4).filter (fun r => r = 0) = {0} := by
  have h := batch_timing_reduction_and_report [(3 : ℚ), 1, 2] [(5 : ℚ)]
  exact ⟨h.1 1 (by norm_num), (h.2.2.1 0 0 0 0).mpr rfl, h.2.2.2 4 (by norm_num)⟩

/-- **C5.** A rank holding the inactive sentinel (-1) early-exits: its trace
is exactly the batch epilogue followed by grid release and MPI finalization;
it never enters matrix ingestion, option setup, the solver call, the solution
check/error report, any deallocation of solver structures, or the statistics
free. -/
theorem inactive_rank_early_exit (batch : Bool) (zscpIam info myrank : Int) :
    mainTrace batch (-1) zscpIam info myrank
      = batchEpilogue batch myrank ++ [Step.gridExit, Step.mpiFinalize]
    ∧ ((mainTrace batch (-1) zscpIam info myrank).contains Step.matrixIngest
        || (mainTrace batch (-1) zscpIam info myrank).contains Step.optionSetup
        || (mainTrace batch (-1) zscpIam info myrank).contains Step.solverCall
        || (mainTrace batch (-1) zscpIam info myrank).contains Step.accuracyCheck
        || (mainTrace batch (-1) zscpIam info myrank).contains Step.errorReport
        || (mainTrace batch (-1) zscpIam info myrank).contains Step.statPrint2d
        || (mainTrace batch (-1) zscpIam info myrank).contains Step.destroyLU
        || (mainTrace batch (-1) zscpIam info myrank).contains Step.solveFinalize
        || (mainTrace batch (-1) zscpIam info myrank).contains Step.deAllocLlu3d
        || (mainTrace batch (-1) zscpIam info myrank).contains Step.deAllocGlu3d
        || (mainTrace batch (-1) zscpIam info myrank).contains Step.destroyA3dGathered
        || (mainTrace batch (-1) zscpIam info myrank).contains Step.destroyMatrix
        || (mainTrace batch (-1) zscpIam info myrank).contains Step.freeVectors
        || (mainTrace batch (-1) zscpIam info myrank).contains Step.scalePermFree
        || (mainTrace batch (-1) zscpIam info myrank).contains Step.luStructFree
        || (mainTrace batch (-1) zscpIam info myrank).contains Step.closeFile
        || (mainTrace batch (-1) zscpIam info myrank).contains Step.statFree) = false
    ∧ (mainTrace batch (-1) zscpIam info myrank).contains Step.gridExit = true
    ∧ (mainTrace batch (-1) zscpIam info myrank).contains Step.mpiFinalize = true := by
  cases batch <;> by_cases hm : myrank = 0 <;>
    simp [mainTrace, batchEpilogue, hm]

/-- Witness for C5: an inactive rank in batch mode at global rank 0. -/
theorem inactive_rank_early_exit_witness :
    mainTrace true (-1) 0 0 0
      = batchEpilogue true 0 ++ [Step.gridExit, Step.mpiFinalize] :=
  (inactive_rank_early_exit true 0 0 0).1

/-- **C6.** Destruction of the factor structure is role-aware, selected by the
grid's own layer-identity field `grid.zscp.Iam`: the base layer (0) takes the
full-view path (`dDestroy_LU`, `dSolveFinalize`, after the 2D statistics
print), every other layer takes the reduced-view path (`dDeAllocLlu_3d`,
`dDeAllocGlu_3d`), and no layer takes both. -/
theorem layer_aware_destruction (zscpIam : Int) :
    ((destructorSteps zscpIam).contains Step.destroyLU = true ↔ zscpIam = 0)
    ∧ ((destructorSteps zscpIam).contains Step.solveFinalize = true ↔ zscpIam = 0)
    ∧ ((destructorSteps zscpIam).contains Step.statPrint2d = true ↔ zscpIam = 0)
    ∧ ((destructorSteps zscpIam).contains Step.deAllocLlu3d = true ↔ ¬(zscpIam = 0))
    ∧ ((destructorSteps zscpIam).contains Step.deAllocGlu3d = true ↔ ¬(zscpIam = 0))
    ∧ ((destructorSteps zscpIam).contains Step.destroyLU
        && (destructorSteps zscpIam).contains Step.deAllocLlu3d) = false
    ∧ ((destructorSteps zscpIam).contains Step.solveFinalize
        && (destructorSteps zscpIam).contains Step.deAllocGlu3d) = false := by
  by_cases hz : zscpIam = 0 <;> simp [destructorSteps, hz]

/-- Witness for C6 on the two layer roles 0 and 1. -/
theorem layer_aware_destruction_witness :
    (destructorSteps 0).contains Step.destroyLU = true
    ∧ (destructorSteps 1).contains Step.deAllocLlu3d = true :=
  ⟨(layer_aware_destruction 0).1.mpr rfl,
    (layer_aware_destruction 1).2.2.2.1.mpr (by norm_num)⟩

/-- **C7.** For every active rank, the statistics print (base layer), the
layer-aware deallocation, the matrix/vector frees, and the statistics free
all execute regardless of the solver status; a nonzero status replaces only
the solution accuracy check with the error report. -/
theorem cleanup_runs_regardless_of_status (batch : Bool)
    (iam zscpIam info myrank : Int) (hactive : ¬(iam = -1)) :
    ((mainTrace batch iam zscpIam info myrank).contains Step.accuracyCheck = true
      ↔ info = 0)
    ∧ ((mainTrace batch iam zscpIam info myrank).contains Step.errorReport = true
      ↔ ¬(info = 0))
    ∧ (mainTrace batch iam zscpIam info myrank).contains Step.destroyA3dGathered = true
    ∧ (mainTrace batch iam zscpIam info myrank).contains Step.destroyMatrix = true
    ∧ (mainTrace batch iam zscpIam info myrank).contains Step.freeVectors = true
    ∧ (mainTrace batch iam zscpIam info myrank).contains Step.scalePermFree = true
    ∧ (mainTrace batch iam zscpIam info myrank).contains Step.luStructFree = true
    ∧ (mainTrace batch iam zscpIam info myrank).contains Step.closeFile = true
    ∧ (mainTrace batch iam zscpIam info myrank).contains Step.statFree = true
    ∧ ((mainTrace batch iam zscpIam info myrank).contains Step.statPrint2d = true
      ↔ zscpIam = 0)
    ∧ ((mainTrace batch iam zscpIam info myrank).contains Step.destroyLU = true
      ↔ zscpIam = 0)
    ∧ ((mainTrace batch iam zscpIam info myrank).contains Step.solveFinalize = true
      ↔ zscpIam = 0)
    ∧ ((mainTrace batch iam zscpIam info myrank).contains Step.deAllocLlu3d = true
      ↔ ¬(zscpIam = 0))
    ∧ ((mainTrace batch iam zscpIam info myrank).contains Step.deAllocGlu3d = true
      ↔ ¬(zscpIam = 0)) := by
  by_cases hz : zscpIam = 0 <;> by_cases hi : info = 0 <;> cases batch <;>
    by_cases hm : myrank = 0 <;>
    simp [mainTrace, batchEpilogue, destructorSteps, postSolveAction,
      hactive, hz, hi, hm]

/-- Witness for C7: an active base-layer rank with a failed solve (info = 5)
still reaches the frees, while the accuracy check is replaced by the error
report. -/
theorem cleanup_runs_regardless_of_status_witness :
    (mainTrace false 0 0 5 0).contains Step.luStructFree = true
    ∧ (mainTrace false 0 0 5 0).contains Step.statFree = true
    ∧ (mainTrace false 0 0 5 0).contains Step.errorReport = true := by
  have h := cleanup_runs_regardless_of_status false 0 0 5 0 (by norm_num)
  exact ⟨h.2.2.2.2.2.2.1, h.2.2.2.2.2.2.2.2.1, h.2.1.mpr (by norm_num)⟩

/-- **C8 is false as stated**: with no command-line override, the option
record passed to the solver does *not* hold every documented default — the
driver explicitly forces tiny-pivot replacement ON (pddrive3d.c line 396),
against its documented default NO. -/
theorem default_options_claim_counterexample :
    ¬((driverOptions ⟨0, 4, 2, 2, 0⟩ (-1) (-1) (-1) (-1)).ReplaceTinyPivot
      = (set_default_options_dist ⟨0, 4, 2, 2, 0⟩).ReplaceTinyPivot) := by
  simp [driverOptions, set_default_options_dist]

/-- **C8 (amended).** With no command-line override, every option holds its
documented default except the three the driver assigns deliberately —
`Algo3d`, `DiagInv` and `ReplaceTinyPivot`, all forced to YES; in particular
equilibration is on and the look-ahead depth is the fixed default count 10,
but tiny-pivot replacement is ON, not off. -/
theorem default_options_amended (c : EnumCodes) :
    driverOptions c (-1) (-1) (-1) (-1)
      = { set_default_options_dist c with
          Algo3d := yes_no_t.YES
          DiagInv := yes_no_t.YES
          ReplaceTinyPivot := yes_no_t.YES }
    ∧ (driverOptions c (-1) (-1) (-1) (-1)).Equil = yes_no_t.YES
    ∧ (driverOptions c (-1) (-1) (-1) (-1)).num_lookaheads = 10
    ∧ (driverOptions c (-1) (-1) (-1) (-1)).ReplaceTinyPivot = yes_no_t.YES := by
  refine ⟨?_, ?_, ?_, ?_⟩ <;> simp [driverOptions, set_default_options_dist]

/-- Witness for C8's amended statement at concrete enum codes. -/
theorem default_options_amended_witness :
    (driverOptions ⟨0, 4, 2, 2, 0⟩ (-1) (-1) (-1) (-1)).num_lookaheads = 10
    ∧ (driverOptions ⟨0, 4, 2, 2, 0⟩ (-1) (-1) (-1) (-1)).Equil = yes_no_t.YES :=
  ⟨(default_options_amended ⟨0, 4, 2, 2, 0⟩).2.2.1,
    (default_options_amended ⟨0, 4, 2, 2, 0⟩).2.1⟩

/-- **C9.** Each of the overrides `-l` (look-ahead), `-p` (row permutation),
`-q` (column permutation) and `-i` (iterative refinement) replaces its option
field iff the parsed value differs from -1, and touches nothing else; an
explicit -1 coincides with the parse variables' initial value, so it leaves
the defaults in force. -/
theorem option_override_iff (c : EnumCodes) (lookahead colperm rowperm ir : Int) :
    driverOptions c lookahead colperm rowperm ir
      = { driverOptions c (-1) (-1) (-1) (-1) with
          RowPerm := if rowperm ≠ -1 then rowperm
            else (set_default_options_dist c).RowPerm
          ColPerm := if colperm ≠ -1 then colperm
            else (set_default_options_dist c).ColPerm
          num_lookaheads := if lookahead ≠ -1 then lookahead
            else (set_default_options_dist c).num_lookaheads
          IterRefine := if ir ≠ -1 then ir
            else (set_default_options_dist c).IterRefine } := by
  by_cases h1 : lookahead = -1 <;> by_cases h2 : colperm = -1 <;>
    by_cases h3 : rowperm = -1 <;> by_cases h4 : ir = -1 <;>
    simp [driverOptions, set_default_options_dist, h1, h2, h3, h4]

/-- Witness for C9: overriding look-ahead and row permutation while leaving
column permutation and refinement at the explicit value -1. -/
theorem option_override_iff_witness :
    driverOptions ⟨0, 4, 2, 2, 0⟩ 7 (-1) 3 (-1)
      = { driverOptions ⟨0, 4, 2, 2, 0⟩ (-1) (-1) (-1) (-1) with
          RowPerm := if (3 : Int) ≠ -1 then 3
            else (set_default_options_dist ⟨0, 4, 2, 2, 0⟩).RowPerm
          ColPerm := if (-1 : Int) ≠ -1 then -1
            else (set_default_options_dist ⟨0, 4, 2, 2, 0⟩).ColPerm
          num_lookaheads := if (7 : Int) ≠ -1 then 7
            else (set_default_options_dist ⟨0, 4, 2, 2, 0⟩).num_lookaheads
          IterRefine := if (-1 : Int) ≠ -1 then -1
            else (set_default_options_dist ⟨0, 4, 2, 2, 0⟩).IterRefine } :=
  option_override_iff ⟨0, 4, 2, 2, 0⟩ 7 (-1) 3 (-1)

/-- **C10.** `checkNRFMT(A, B)` completes with no assertion failure iff the
two local matrices agree on `nnz_loc`, `m_loc`, `fst_row`, on every value and
column index among the first `nnz_loc` entries, and on every row-pointer
entry up to index `m_loc`; whenever it completes, the final printed message is
the success message (an assertion failure aborts before it). -/
theorem checkNRFMT_characterization (A B : NRformat_loc) :
    ((checkNRFMT A B).isSome = true ↔
      (A.nnz_loc = B.nnz_loc ∧ A.m_loc = B.m_loc ∧ A.fst_row = B.fst_row
        ∧ (∀ i < A.nnz_loc, A.nzval i = B.nzval i ∧ A.colind i = B.colind i)
        ∧ (∀ i ≤ A.m_loc, A.rowptr i = B.rowptr i)))
    ∧ (checkNRFMT A B).all
        (fun ms => ms.getLast? == some CheckMsg.matrixCheckPassed) = true := by
  constructor
  · unfold checkNRFMT
    by_cases h1 : A.nnz_loc = B.nnz_loc
    · by_cases h2 : A.m_loc = B.m_loc
      · by_cases h3 : A.fst_row = B.fst_row
        · rw [if_pos h1, if_pos h2, if_pos h3]
          cases hloop : checkEntryLoop A B A.nnz_loc with
          | none =>
            have hent := checkEntryLoop_isSome A B A.nnz_loc
            rw [hloop] at hent
            simp only [Option.isSome_none, Bool.false_eq_true, false_iff] at hent
            simp only [Option.isSome_none, Bool.false_eq_true, false_iff]
            rintro ⟨-, -, -, hvals, -⟩
            exact hent hvals
          | some ms =>
            have hent := checkEntryLoop_isSome A B A.nnz_loc
            rw [hloop] at hent
            simp only [Option.isSome_some, true_iff] at hent
            dsimp only
            by_cases hrow : checkRowptrLoop A B (A.m_loc + 1) = true
            · rw [if_pos hrow]
              simp only [Option.isSome_some, true_iff]
              refine ⟨h1, h2, h3, hent, ?_⟩
              intro i hi
              exact (checkRowptrLoop_eq_true A B (A.m_loc + 1)).mp hrow i (by omega)
            · rw [if_neg hrow]
              simp only [Option.isSome_none, Bool.false_eq_true, false_iff]
              rintro ⟨-, -, -, -, hptr⟩
              exact hrow ((checkRowptrLoop_eq_true A B (A.m_loc + 1)).mpr
                fun i hi => hptr i (by omega))
        · rw [if_pos h1, if_pos h2, if_neg h3]
          simp only [Option.isSome_none, Bool.false_eq_true, false_iff]
          rintro ⟨-, -, h3', -⟩
          exact h3 h3'
      · rw [if_pos h1, if_neg h2]
        simp only [Option.isSome_none, Bool.false_eq_true, false_iff]
        rintro ⟨-, h2', -⟩
        exact h2 h2'
    · rw [if_neg h1]
      simp only [Option.isSome_none, Bool.false_eq_true, false_iff]
      rintro ⟨h1', -⟩
      exact h1 h1'
  · unfold checkNRFMT
    by_cases h1 : A.nnz_loc = B.nnz_loc
    · by_cases h2 : A.m_loc = B.m_loc
      · by_cases h3 : A.fst_row = B.fst_row
        · rw [if_pos h1, if_pos h2, if_pos h3]
          cases hloop : checkEntryLoop A B A.nnz_loc with
          | none => rfl
          | some ms =>
            dsimp only
            by_cases hrow : checkRowptrLoop A B (A.m_loc + 1) = true
            · rw [if_pos hrow]
              simp [List.getLast?_concat]
            · rw [if_neg hrow]
              rfl
        · rw [if_pos h1, if_pos h2, if_neg h3]; rfl
      · rw [if_pos h1, if_neg h2]; rfl
    · rw [if_neg h1]; rfl

/-- Witness for C10: the check passes on a pair of equal concrete matrices. -/
theorem checkNRFMT_characterization_witness :
    (checkNRFMT ⟨2, 1, 0, fun _ => 5, fun _ => 7, fun _ => 9⟩
      ⟨2, 1, 0, fun _ => 5, fun _ => 7, fun _ => 9⟩).isSome = true :=
  (checkNRFMT_characterization _ _).1.mpr
    ⟨rfl, rfl, rfl, fun _ _ => ⟨rfl, rfl⟩, fun _ _ => rfl⟩

end PDDrive3D
